import Mathlib

/-!
Verification of the GitHub repository-browser data layer of a portfolio site:
the `GitHubClient` (src/lib/github.ts), its error classes, the error taxonomy
module (src/lib/github/errors.ts), and the TTL cache (src/lib/github/cache.ts).

The TypeScript source is shallowly embedded: strings are Lean `String`s,
JavaScript numbers holding integer values are `Nat`/`Int`, maps are
association lists with JavaScript `Map` semantics (insertion order, in-place
overwrite), `Date.now()` is an explicit `now : Int` argument and thrown
exceptions become `Except` values.
-/

set_option autoImplicit false

namespace Portfolio

/-! ## JavaScript string primitives used by the source -/

/-- `pat` occurs somewhere in `s` — JavaScript `String.prototype.includes`. -/
def jsIncludes (s pat : String) : Bool :=
  decide (List.IsInfix pat.toList s.toList)

/-- `path.replace(/^\/+/, '')`: drop every leading slash. -/
def stripLeadingSlashes (p : String) : String :=
  String.mk (p.toList.dropWhile (· == '/'))

/-- `path.replace(/^\/+|\/+$/g, '')`: drop every leading and trailing slash. -/
def stripSlashesBoth (p : String) : String :=
  String.mk (((p.toList.dropWhile (· == '/')).reverse.dropWhile (· == '/')).reverse)

/-- JavaScript `s || fallback` on an optional string field: `undefined` and
the empty string are both falsy. -/
def jsOrString (s : Option String) (fallback : String) : String :=
  match s with
  | some m => if m = "" then fallback else m
  | none => fallback

/-- `s.split(sep)` for a one-character separator, over character lists. -/
def splitOnChar (sep : Char) : List Char → List (List Char)
  | [] => [[]]
  | c :: rest =>
    let r := splitOnChar sep rest
    if c = sep then [] :: r
    else
      match r with
      | h :: t => (c :: h) :: t
      | [] => [[c]]

/-- `item.path.split('/').pop() || item.path`: the final `/`-separated
segment, falling back to the whole path when `pop` yields the empty string. -/
def jsNameFromPath (path : String) : String :=
  match (splitOnChar '/' path.toList).getLast? with
  | some s => if s = [] then path else String.mk s
  | none => path

/-- `s.startsWith(pre)`, over character lists. -/
def jsStartsWith (s pre : String) : Bool :=
  pre.toList.isPrefixOf s.toList

/-- `s.includes(c)` for a one-character needle, over character lists. -/
def jsContainsChar (s : String) (c : Char) : Bool :=
  s.toList.contains c

/-- JavaScript `s.length` (code-unit count; character count here). -/
def jsLength (s : String) : Nat := s.toList.length

/-- `s.slice(n)` for a nonnegative index: drop the first `n` characters. -/
def jsSliceFrom (s : String) (n : Nat) : String :=
  String.mk (s.toList.drop n)

/-- ASCII lower-casing, `String.prototype.toLowerCase` on the identifiers
appearing in file names. -/
def jsToLower (s : String) : String :=
  String.mk (s.toList.map Char.toLower)

/-! ## Base64 decoding (`decodeBase64` in src/lib/github.ts, Node branch)

`decodeBase64` first strips whitespace with `replace(/\s/g, '')` and then
calls `Buffer.from(cleaned, 'base64').toString('utf-8')`.  Node's base64
decoder ignores every character outside the base64 alphabet (whitespace
included, so the explicit strip is subsumed) and decodes the final partial
group of 2 or 3 sextets into 1 or 2 bytes.  It never throws, so the
`try`/`catch` fallbacks guarding `decodeBase64` call sites are unreachable
in the Node environment and are not modelled. -/

/-- Value of one base64 alphabet character; `none` for characters Node's
decoder ignores (whitespace, padding `=`, anything invalid). -/
def b64val (c : Char) : Option Nat :=
  if 'A' ≤ c ∧ c ≤ 'Z' then some (c.toNat - 65)
  else if 'a' ≤ c ∧ c ≤ 'z' then some (c.toNat - 97 + 26)
  else if '0' ≤ c ∧ c ≤ '9' then some (c.toNat - 48 + 52)
  else if c = '+' then some 62
  else if c = '/' then some 63
  else none

/-- Pack 6-bit groups into bytes; a trailing group of 2 or 3 sextets yields
1 or 2 bytes, a single trailing sextet is dropped. -/
def sextetsToBytes : List Nat → List Nat
  | a :: b :: c :: d :: rest =>
      (a * 4 + b / 16) :: ((b % 16) * 16 + c / 4) :: ((c % 4) * 64 + d) ::
        sextetsToBytes rest
  | [a, b, c] => [a * 4 + b / 16, (b % 16) * 16 + c / 4]
  | [a, b] => [a * 4 + b / 16]
  | _ => []

/-- Bytes produced by base64-decoding the characters of `s`. -/
def b64DecodeBytesOfChars (cs : List Char) : List Nat :=
  sextetsToBytes (cs.filterMap b64val)

/-! ## UTF-8 decoding to UTF-16 code units

`Buffer.toString('utf-8')` produces a JavaScript string; `charCodeAt`
enumerates its UTF-16 code units.  Invalid sequences are replaced by
U+FFFD following the WHATWG decoder (maximal-subpart replacement, the
offending byte is reprocessed), which is what Node implements. -/

def replacementChar : Nat := 0xFFFD

/-- Is `b` a UTF-8 continuation byte? -/
def isCont (b : Nat) : Bool := 0x80 ≤ b ∧ b < 0xC0

/-- Decode bytes to UTF-16 code units, with explicit fuel so that the
recursion is structural (each step consumes at least one byte, so any fuel
of at least the list length is enough; reprocessing an offending byte keeps
it in the list while the fuel still drops by one). -/
def utf8DecodeF : Nat → List Nat → List Nat
  | 0, _ => []
  | _, [] => []
  | fuel + 1, b :: rest =>
    if b < 0x80 then b :: utf8DecodeF fuel rest
    else if b < 0xC2 then replacementChar :: utf8DecodeF fuel rest
    else if b < 0xE0 then
      match rest with
      | [] => [replacementChar]
      | c1 :: rest' =>
        if isCont c1 then
          ((b - 0xC0) * 64 + (c1 - 0x80)) :: utf8DecodeF fuel rest'
        else replacementChar :: utf8DecodeF fuel (c1 :: rest')
    else if b < 0xF0 then
      match rest with
      | [] => [replacementChar]
      | c1 :: rest' =>
        if (if b = 0xE0 then 0xA0 else 0x80) ≤ c1 ∧
            c1 ≤ (if b = 0xED then 0x9F else 0xBF) then
          match rest' with
          | [] => [replacementChar]
          | c2 :: rest'' =>
            if isCont c2 then
              ((b - 0xE0) * 4096 + (c1 - 0x80) * 64 + (c2 - 0x80)) ::
                utf8DecodeF fuel rest''
            else replacementChar :: utf8DecodeF fuel (c2 :: rest'')
        else replacementChar :: utf8DecodeF fuel (c1 :: rest')
    else if b < 0xF5 then
      match rest with
      | [] => [replacementChar]
      | c1 :: rest' =>
        if (if b = 0xF0 then 0x90 else 0x80) ≤ c1 ∧
            c1 ≤ (if b = 0xF4 then 0x8F else 0xBF) then
          match rest' with
          | [] => [replacementChar]
          | c2 :: rest'' =>
            if isCont c2 then
              match rest'' with
              | [] => [replacementChar]
              | c3 :: rest''' =>
                if isCont c3 then
                  (0xD800 + ((b - 0xF0) * 262144 + (c1 - 0x80) * 4096 +
                      (c2 - 0x80) * 64 + (c3 - 0x80) - 0x10000) / 1024) ::
                    (0xDC00 + ((b - 0xF0) * 262144 + (c1 - 0x80) * 4096 +
                      (c2 - 0x80) * 64 + (c3 - 0x80) - 0x10000) % 1024) ::
                    utf8DecodeF fuel rest'''
                else replacementChar :: utf8DecodeF fuel (c3 :: rest''')
            else replacementChar :: utf8DecodeF fuel (c2 :: rest'')
        else replacementChar :: utf8DecodeF fuel (c1 :: rest')
    else replacementChar :: utf8DecodeF fuel rest

/-- Decode a byte list to the UTF-16 code units of the resulting string
(WHATWG replacement decoding, what `Buffer.toString('utf-8')` does). -/
def utf8Decode (l : List Nat) : List Nat := utf8DecodeF l.length l

/-- Rebuild a Lean string from UTF-16 code units (pairing surrogates),
with fuel for the same reason as `utf8DecodeF`. -/
def unitsToCharsF : Nat → List Nat → List Char
  | 0, _ => []
  | _, [] => []
  | fuel + 1, u :: rest =>
    if 0xD800 ≤ u ∧ u < 0xDC00 then
      match rest with
      | [] => [Char.ofNat replacementChar]
      | v :: rest' =>
        if 0xDC00 ≤ v ∧ v < 0xE000 then
          Char.ofNat (0x10000 + (u - 0xD800) * 1024 + (v - 0xDC00)) ::
            unitsToCharsF fuel rest'
        else Char.ofNat replacementChar :: unitsToCharsF fuel (v :: rest')
    else if 0xDC00 ≤ u ∧ u < 0xE000 then
      Char.ofNat replacementChar :: unitsToCharsF fuel rest
    else Char.ofNat u :: unitsToCharsF fuel rest

/-- Rebuild a Lean string from UTF-16 code units. -/
def unitsToChars (l : List Nat) : List Char := unitsToCharsF l.length l

/-- `decodeBase64(base64)`: strip whitespace, base64-decode, read as UTF-8. -/
def decodeBase64 (base64 : String) : String :=
  String.mk (unitsToChars (utf8Decode (b64DecodeBytesOfChars base64.toList)))

/-! ## Data model (src/lib/github/types.ts) -/

/-- Rate limit snapshot parsed from response headers. -/
structure GitHubRateLimit where
  limit : Nat
  remaining : Nat
  reset : Nat
  used : Nat
deriving DecidableEq, Repr

/-- Entry type in the raw git tree listing. -/
inductive GitTreeEntryType where
  | blob
  | tree
deriving DecidableEq, Repr

/-- Item in a GitHub repository tree response. -/
structure GitHubTreeItem where
  path : String
  mode : String
  type : GitTreeEntryType
  sha : String
  size : Option Nat
  url : String
deriving DecidableEq, Repr

/-- GitHub repository tree response. -/
structure GitHubTree where
  sha : String
  url : String
  tree : List GitHubTreeItem
  truncated : Bool
deriving DecidableEq, Repr

/-- Parsed tree item type. -/
inductive ParsedItemType where
  | file
  | directory
deriving DecidableEq, Repr

/-- Parsed tree item with derived metadata. -/
structure ParsedTreeItem where
  path : String
  name : String
  type : ParsedItemType
  sha : String
  size : Option Nat
  url : String
deriving DecidableEq, Repr

/-- Parsed repository tree with categorized items. -/
structure ParsedRepositoryTree where
  sha : String
  truncated : Bool
  files : List ParsedTreeItem
  directories : List ParsedTreeItem
  all : List ParsedTreeItem
deriving DecidableEq, Repr

/-- Encoding reported for blob content. -/
inductive BlobEncoding where
  | base64
  | utf8
deriving DecidableEq, Repr

/-- GitHub contents-API response for a file (`encoding` is always base64). -/
structure GitHubFileContent where
  name : String
  path : String
  sha : String
  size : Nat
  url : String
  content : String
  encoding : BlobEncoding
deriving DecidableEq, Repr

/-- GitHub blob response from the git/blobs endpoint. -/
structure GitHubBlob where
  sha : String
  node_id : String
  size : Nat
  url : String
  content : String
  encoding : BlobEncoding
deriving DecidableEq, Repr

/-- Parsed file content with decoded data. -/
structure ParsedFileContent where
  name : String
  path : String
  sha : String
  size : Nat
  encoding : BlobEncoding
  content : Option String
  isBinary : Bool
  rawContent : String
deriving DecidableEq, Repr

/-! ## Cache (src/lib/github/cache.ts)

Each of the four spaces is a JavaScript `Map` modelled as an association
list in insertion order: `set` overwrites in place or appends, `delete`
removes the entry, `size` is the length.  `Date.now()` becomes the `now`
argument threaded through every operation. -/

/-- Default cache durations in milliseconds. -/
def CACHE_DURATIONS_TREE : Int := 30 * 60 * 1000

/-- Repository info cache duration (15 minutes). -/
def CACHE_DURATIONS_REPOSITORY : Int := 15 * 60 * 1000

/-- File content by SHA cache duration (24 hours). -/
def CACHE_DURATIONS_FILE_CONTENT_BY_SHA : Int := 24 * 60 * 60 * 1000

/-- File content by path cache duration (5 minutes). -/
def CACHE_DURATIONS_FILE_CONTENT_BY_PATH : Int := 5 * 60 * 1000

/-- Cache entry with metadata. -/
structure CacheEntry (α : Type) where
  data : α
  timestamp : Int
  ttl : Int
deriving DecidableEq, Repr

/-- `Map.get`: first (and, in reachable states, only) entry at `k`. -/
def mapGet {α : Type} : List (String × α) → String → Option α
  | [], _ => none
  | (k', v) :: rest, k => if k' = k then some v else mapGet rest k

/-- `Map.set`: overwrite in place, or append a new entry. -/
def mapSet {α : Type} : List (String × α) → String → α → List (String × α)
  | [], k, v => [(k, v)]
  | (k', v') :: rest, k, v =>
    if k' = k then (k, v) :: rest else (k', v') :: mapSet rest k v

/-- `Map.delete`: drops the entry at `k` (every matching entry; reachable
states hold at most one). -/
def mapDelete {α : Type} : List (String × α) → String → List (String × α)
  | [], _ => []
  | e :: rest, k =>
    if e.1 = k then mapDelete rest k else e :: mapDelete rest k

/-- The shared read pattern of every cache getter: return the entry's data
when `now - timestamp < ttl` (`isValid`), otherwise delete the key lazily
and return null. -/
def spaceGet {α : Type} (m : List (String × CacheEntry α)) (key : String)
    (now : Int) : Option α × List (String × CacheEntry α) :=
  match mapGet m key with
  | some e => if now - e.timestamp < e.ttl then (some e.data, m)
              else (none, mapDelete m key)
  | none => (none, mapDelete m key)

/-- The shared write pattern of every cache setter: unconditionally store
the data stamped with the current time. -/
def spaceSet {α : Type} (m : List (String × CacheEntry α)) (key : String)
    (data : α) (now ttl : Int) : List (String × CacheEntry α) :=
  mapSet m key ⟨data, now, ttl⟩

/-- The four key spaces.  The repository space stores `unknown` values in
the source; it is parameterized by `ρ` here. -/
structure GitHubCache (ρ : Type) where
  treeCache : List (String × CacheEntry ParsedRepositoryTree)
  fileContentByShaCache : List (String × CacheEntry ParsedFileContent)
  fileContentByPathCache : List (String × CacheEntry ParsedFileContent)
  repositoryCache : List (String × CacheEntry ρ)
deriving DecidableEq

/-- The empty cache (freshly constructed `GitHubCache`). -/
def GitHubCache.empty (ρ : Type) : GitHubCache ρ := ⟨[], [], [], []⟩

/-- `` `tree:${owner}/${repo}:${ref ?? 'default'}` ``. -/
def getTreeCacheKey (owner repo : String) (ref : Option String) : String :=
  "tree:" ++ owner ++ "/" ++ repo ++ ":" ++ ref.getD "default"

/-- `` `blob:${owner}/${repo}:${sha}` ``. -/
def getFileByShaKey (owner repo sha : String) : String :=
  "blob:" ++ owner ++ "/" ++ repo ++ ":" ++ sha

/-- `` `file:${owner}/${repo}:${path}:${ref ?? 'default'}` ``. -/
def getFileByPathKey (owner repo path : String) (ref : Option String) :
    String :=
  "file:" ++ owner ++ "/" ++ repo ++ ":" ++ path ++ ":" ++ ref.getD "default"

/-- `` `repo:${owner}/${repo}` ``. -/
def getRepositoryCacheKey (owner repo : String) : String :=
  "repo:" ++ owner ++ "/" ++ repo

/-- `getTree`: lazy-expiring read of the tree space. -/
def GitHubCache.getTree {ρ : Type} (c : GitHubCache ρ) (owner repo : String)
    (ref : Option String) (now : Int) :
    Option ParsedRepositoryTree × GitHubCache ρ :=
  let r := spaceGet c.treeCache (getTreeCacheKey owner repo ref) now
  (r.1, { c with treeCache := r.2 })

/-- `setTree` (the source defaults `ttl` to `CACHE_DURATIONS.TREE`). -/
def GitHubCache.setTree {ρ : Type} (c : GitHubCache ρ) (owner repo : String)
    (ref : Option String) (data : ParsedRepositoryTree) (ttl now : Int) :
    GitHubCache ρ :=
  { c with treeCache :=
      spaceSet c.treeCache (getTreeCacheKey owner repo ref) data now ttl }

/-- `getFileContentBySha`: lazy-expiring read of the sha space. -/
def GitHubCache.getFileContentBySha {ρ : Type} (c : GitHubCache ρ)
    (owner repo sha : String) (now : Int) :
    Option ParsedFileContent × GitHubCache ρ :=
  let r := spaceGet c.fileContentByShaCache (getFileByShaKey owner repo sha) now
  (r.1, { c with fileContentByShaCache := r.2 })

/-- `setFileContentBySha` (source default ttl: `FILE_CONTENT_BY_SHA`). -/
def GitHubCache.setFileContentBySha {ρ : Type} (c : GitHubCache ρ)
    (owner repo sha : String) (data : ParsedFileContent) (ttl now : Int) :
    GitHubCache ρ :=
  { c with fileContentByShaCache :=
      (spaceSet c.fileContentByShaCache (getFileByShaKey owner repo sha)
        data now ttl) }

/-- `getFileContentByPath`: lazy-expiring read of the path space. -/
def GitHubCache.getFileContentByPath {ρ : Type} (c : GitHubCache ρ)
    (owner repo path : String) (ref : Option String) (now : Int) :
    Option ParsedFileContent × GitHubCache ρ :=
  let r := spaceGet c.fileContentByPathCache
    (getFileByPathKey owner repo path ref) now
  (r.1, { c with fileContentByPathCache := r.2 })

/-- `setFileContentByPath` (source default ttl: `FILE_CONTENT_BY_PATH`):
stores the path entry and, when `data.sha` is truthy, also stores the
corresponding sha entry with the sha space's own default TTL. -/
def GitHubCache.setFileContentByPath {ρ : Type} (c : GitHubCache ρ)
    (owner repo path : String) (ref : Option String)
    (data : ParsedFileContent) (ttl now : Int) : GitHubCache ρ :=
  let c1 : GitHubCache ρ :=
    { c with fileContentByPathCache :=
        (spaceSet c.fileContentByPathCache
          (getFileByPathKey owner repo path ref) data now ttl) }
  if data.sha ≠ "" then
    c1.setFileContentBySha owner repo data.sha data
      CACHE_DURATIONS_FILE_CONTENT_BY_SHA now
  else c1

/-- `getRepository`: lazy-expiring read of the repository space. -/
def GitHubCache.getRepository {ρ : Type} (c : GitHubCache ρ)
    (owner repo : String) (now : Int) : Option ρ × GitHubCache ρ :=
  let r := spaceGet c.repositoryCache (getRepositoryCacheKey owner repo) now
  (r.1, { c with repositoryCache := r.2 })

/-- `setRepository` (source default ttl: `REPOSITORY`). -/
def GitHubCache.setRepository {ρ : Type} (c : GitHubCache ρ)
    (owner repo : String) (data : ρ) (ttl now : Int) : GitHubCache ρ :=
  { c with repositoryCache :=
      (spaceSet c.repositoryCache (getRepositoryCacheKey owner repo)
        data now ttl) }

/-- `invalidateRepository(owner, repo)`: scans the tree and both file spaces
deleting every key that `includes` the substring `` `${owner}/${repo}` ``,
and deletes the exact repository key from the repository space. -/
def GitHubCache.invalidateRepository {ρ : Type} (c : GitHubCache ρ)
    (owner repo : String) : GitHubCache ρ :=
  let pfx := owner ++ "/" ++ repo
  { treeCache := c.treeCache.filter (fun e => !(jsIncludes e.1 pfx)),
    fileContentByShaCache :=
      c.fileContentByShaCache.filter (fun e => !(jsIncludes e.1 pfx)),
    fileContentByPathCache :=
      c.fileContentByPathCache.filter (fun e => !(jsIncludes e.1 pfx)),
    repositoryCache :=
      mapDelete c.repositoryCache (getRepositoryCacheKey owner repo) }

/-- `invalidateAll()`. -/
def GitHubCache.invalidateAll {ρ : Type} (_c : GitHubCache ρ) :
    GitHubCache ρ := GitHubCache.empty ρ

/-- `getStats()` result. -/
structure CacheStats where
  treeEntries : Nat
  fileContentByShaEntries : Nat
  fileContentByPathEntries : Nat
  repositoryEntries : Nat
deriving DecidableEq, Repr

/-- `getStats()`: live `Map.size` of each space. -/
def GitHubCache.getStats {ρ : Type} (c : GitHubCache ρ) : CacheStats :=
  ⟨c.treeCache.length, c.fileContentByShaCache.length,
    c.fileContentByPathCache.length, c.repositoryCache.length⟩

/-- `cachedFetchFileBySha`: check the sha space, on a miss run the fetch
function and store its result with the sha default TTL.  The fetch function
is modelled by its result `fetchResult`; the returned `Bool` records whether
it was invoked. -/
def cachedFetchFileBySha {ρ : Type} (c : GitHubCache ρ)
    (owner repo sha : String) (now : Int) (fetchResult : ParsedFileContent) :
    ParsedFileContent × GitHubCache ρ × Bool :=
  let r := c.getFileContentBySha owner repo sha now
  match r.1 with
  | some cached => (cached, r.2, false)
  | none =>
    (fetchResult,
      r.2.setFileContentBySha owner repo sha fetchResult
        CACHE_DURATIONS_FILE_CONTENT_BY_SHA now, true)

/-- `cachedFetchFileByPath`: check the path space, on a miss run the fetch
function and store its result via `setFileContentByPath` (which also
populates the sha space).  The returned `Bool` records whether the fetch
function was invoked. -/
def cachedFetchFileByPath {ρ : Type} (c : GitHubCache ρ)
    (owner repo path : String) (ref : Option String) (now : Int)
    (fetchResult : ParsedFileContent) :
    ParsedFileContent × GitHubCache ρ × Bool :=
  let r := c.getFileContentByPath owner repo path ref now
  match r.1 with
  | some cached => (cached, r.2, false)
  | none =>
    (fetchResult,
      r.2.setFileContentByPath owner repo path ref fetchResult
        CACHE_DURATIONS_FILE_CONTENT_BY_PATH now, true)

/-! ## Binary detection (src/lib/github.ts) -/

/-- Code units counted by the sniff loop as non-printable: below `0x09`, or
strictly between `0x0D` and `0x20` (that is, `0x0E`–`0x1F`). -/
def isCtlUnit (code : Nat) : Bool := code < 9 ∨ (13 < code ∧ code < 32)

/-- `isBinaryContent(base64Content)`: decode the first 1000 characters of
the payload and scan the resulting string's `charCodeAt` values — any
`U+0000` means binary; otherwise binary iff more than 10% of the decoded
code units are non-printable.  The float test `nonPrintable / length > 0.1`
agrees exactly with the rational test `10 * nonPrintable > length` for every
sample (at most 750 units from 1000 base64 characters, denominators far too
coarse to land between `1/10` and the double nearest `0.1`), so the latter
is used.  `decodeBase64` never throws in Node, so the `catch` branch that
returns `true` is unreachable and not modelled. -/
def isBinaryContent (base64Content : String) : Bool :=
  let decoded := utf8Decode (b64DecodeBytesOfChars (base64Content.toList.take 1000))
  decoded.any (fun code => code == 0) ||
    decide (10 * decoded.countP isCtlUnit > decoded.length)

/-- The fixed known-binary extension list. -/
def binaryExtensions : List String :=
  [".png", ".jpg", ".jpeg", ".gif", ".bmp", ".ico", ".webp", ".svg",
   ".pdf", ".doc", ".docx", ".xls", ".xlsx", ".ppt", ".pptx",
   ".zip", ".tar", ".gz", ".rar", ".7z",
   ".exe", ".dll", ".so", ".dylib",
   ".woff", ".woff2", ".ttf", ".otf", ".eot",
   ".mp3", ".mp4", ".avi", ".mov", ".wmv", ".flv",
   ".bin", ".dat", ".db", ".sqlite"]

/-- `filename.toLowerCase().slice(filename.lastIndexOf('.'))`: the extension
including the dot; when there is no dot, `lastIndexOf` is `-1` and
`slice(-1)` yields the final character. -/
def extOf (filename : String) : String :=
  let lower := (jsToLower filename).toList
  match lower.reverse.findIdx? (· == '.') with
  | some j => String.mk (lower.drop (lower.length - 1 - j))
  | none => String.mk (lower.drop (lower.length - 1))

/-- `isBinaryFile(filename, base64Content)`: extension short-circuit, then
content sniff. -/
def isBinaryFile (filename base64Content : String) : Bool :=
  binaryExtensions.contains (extOf filename) || isBinaryContent base64Content

/-- `parseFileContent(content, path)`.  In the Node environment
`decodeBase64` never throws, so the `catch` early-return (binary fallback)
is unreachable and not modelled. -/
def parseFileContent (content : GitHubFileContent) (path : String) :
    ParsedFileContent :=
  let isBinary := isBinaryFile content.name content.content
  { name := content.name
    path := path
    sha := content.sha
    size := content.size
    encoding := content.encoding
    content := if isBinary then none else some (decodeBase64 content.content)
    isBinary := isBinary
    rawContent := content.content }

/-- `parseBlobContent(blob)`.  The decode branch runs only for non-binary
base64 blobs (its `catch` is unreachable in Node); the `else if` branch
copies utf-8 content verbatim — note it runs even when `isBinary` is true. -/
def parseBlobContent (blob : GitHubBlob) : ParsedFileContent :=
  let isBinary := isBinaryContent blob.content
  let decodedContent : Option String :=
    if ¬ isBinary ∧ blob.encoding = BlobEncoding.base64 then
      some (decodeBase64 blob.content)
    else if blob.encoding = BlobEncoding.utf8 then some blob.content
    else none
  { name := ""
    path := ""
    sha := blob.sha
    size := blob.size
    encoding := blob.encoding
    content := decodedContent
    isBinary := isBinary
    rawContent := blob.content }

/-! ## Tree flattening and directory filtering (src/lib/github.ts) -/

/-- The per-item conversion inside the `getRepositoryFiles` loop. -/
def parseTreeItem (item : GitHubTreeItem) : ParsedTreeItem :=
  { path := item.path
    name := jsNameFromPath item.path
    type := if item.type = GitTreeEntryType.blob then ParsedItemType.file
            else ParsedItemType.directory
    sha := item.sha
    size := item.size
    url := item.url }

/-- The `getRepositoryFiles` loop: push blobs onto `files` and everything
else onto `directories`, preserving upstream order within each. -/
def splitTreeItems : List GitHubTreeItem →
    List ParsedTreeItem × List ParsedTreeItem
  | [] => ([], [])
  | item :: rest =>
    let r := splitTreeItems rest
    if item.type = GitTreeEntryType.blob then
      (parseTreeItem item :: r.1, r.2)
    else (r.1, parseTreeItem item :: r.2)

/-- The pure core of `getRepositoryFiles`: flatten a raw tree response into
a `ParsedRepositoryTree` with `all = directories ++ files`. -/
def parseRepositoryTree (t : GitHubTree) : ParsedRepositoryTree :=
  let r := splitTreeItems t.tree
  { sha := t.sha
    truncated := t.truncated
    files := r.1
    directories := r.2
    all := r.2 ++ r.1 }

/-- The pure core of `getDirectoryContents` over an already-fetched tree:
normalize the path, then keep the direct children of the named directory
(or, at the root, the items without a separator). -/
def getDirectoryContents (tree : ParsedRepositoryTree) (path : String) :
    List ParsedTreeItem :=
  let normalizedPath := stripSlashesBoth path
  if normalizedPath ≠ "" then
    tree.all.filter (fun item =>
      jsStartsWith item.path (normalizedPath ++ "/") &&
        !jsContainsChar (jsSliceFrom item.path (jsLength normalizedPath + 1)) '/')
  else
    tree.all.filter (fun item => !jsContainsChar item.path '/')

/-! ## `Date.prototype.toISOString` for the rate-limit message -/

/-- Zero-pad to two digits. -/
def pad2 (n : Nat) : String := if n < 10 then "0" ++ toString n else toString n

/-- Zero-pad to three digits. -/
def pad3 (n : Nat) : String :=
  if n < 10 then "00" ++ toString n
  else if n < 100 then "0" ++ toString n else toString n

/-- Zero-pad to four digits. -/
def pad4 (n : Nat) : String :=
  if n < 10 then "000" ++ toString n
  else if n < 100 then "00" ++ toString n
  else if n < 1000 then "0" ++ toString n else toString n

/-- Proleptic Gregorian date for a day count since 1970-01-01 (civil-from-days):
`(year, month, day)`. -/
def civilFromDays (z0 : Nat) : Nat × Nat × Nat :=
  let z := z0 + 719468
  let era := z / 146097
  let doe := z % 146097
  let yoe := (doe - doe / 1460 + doe / 36524 - doe / 146096) / 365
  let y := yoe + era * 400
  let doy := doe - (365 * yoe + yoe / 4 - yoe / 100)
  let mp := (5 * doy + 2) / 153
  let d := doy - (153 * mp + 2) / 5 + 1
  let m := if mp < 10 then mp + 3 else mp - 9
  (if m ≤ 2 then y + 1 else y, m, d)

/-- `new Date(ms).toISOString()` for a nonnegative millisecond timestamp
with a four-digit year. -/
def toISOString (ms : Nat) : String :=
  let r := civilFromDays (ms / 86400000)
  let rem := ms % 86400000
  pad4 r.1 ++ "-" ++ pad2 r.2.1 ++ "-" ++ pad2 r.2.2 ++ "T" ++
    pad2 (rem / 3600000) ++ ":" ++ pad2 (rem % 3600000 / 60000) ++ ":" ++
    pad2 (rem % 60000 / 1000) ++ "." ++ pad3 (ms % 1000) ++ "Z"

/-- Cross-check of the formatter against a known timestamp. -/
theorem toISOString_sample : toISOString 1700000000000 = "2023-11-14T22:13:20.000Z" := by
  decide

/-! ## `GitHubClient.request` (src/lib/github.ts)

The HTTP response is modelled by the pieces `request` inspects: `ok`,
`status`, the four rate-limit headers (already parsed to numbers — each is
`none` when the header is absent, matching `parseInt(get(x) || default)`
for well-formed numeric header values), the JSON error body's `message`
(`none` when absent) and the success body.  Thrown errors become `Except`
values; the error classes defined at the bottom of src/lib/github.ts become
the constructors of `GitHubClientError`. -/

/-- Parsed rate-limit headers of one response. -/
structure RateLimitHeadersIn where
  limit : Option Nat
  remaining : Option Nat
  reset : Option Nat
  used : Option Nat
deriving DecidableEq, Repr

/-- The JSON error body `{message, documentation_url?}`. -/
structure ErrorBody where
  message : Option String
deriving DecidableEq, Repr

/-- What `request` looks at in a `fetch` response. -/
structure HttpResponse (T : Type) where
  ok : Bool
  status : Nat
  headers : RateLimitHeadersIn
  errorBody : ErrorBody
  body : T

/-- `parseRateLimitHeaders`: defaults `limit=60`, `remaining=60`, `reset=0`,
`used=0` when a header is absent. -/
def parseRateLimitHeaders (h : RateLimitHeadersIn) : GitHubRateLimit :=
  { limit := h.limit.getD 60
    remaining := h.remaining.getD 60
    reset := h.reset.getD 0
    used := h.used.getD 0 }

/-- The error classes declared in src/lib/github.ts (the ones `request`
throws): `GitHubRateLimitError`, `GitHubNotFoundError`, `GitHubAuthError`
and the base `GitHubApiError`, each carrying its message and, through its
constructor, a status code. -/
inductive GitHubClientError where
  | rateLimitError (message : String) (rateLimit : GitHubRateLimit)
  | notFoundError (message : String)
  | authError (message : String)
  | apiError (message : String) (statusCode : Option Nat)
deriving DecidableEq, Repr

/-- The `statusCode` each error class passes to the base constructor. -/
def GitHubClientError.statusCode : GitHubClientError → Option Nat
  | .rateLimitError _ _ => some 403
  | .notFoundError _ => some 404
  | .authError _ => some 401
  | .apiError _ code => code

/-- Is the thrown error a `GitHubRateLimitError`? -/
def GitHubClientError.isRateLimit : GitHubClientError → Bool
  | .rateLimitError _ _ => true
  | _ => false

/-- The message built for a `GitHubRateLimitError`. -/
def rateLimitMessage (rl : GitHubRateLimit) : String :=
  "GitHub API rate limit exceeded. Resets at " ++ toISOString (rl.reset * 1000)

/-- The error-classification and success paths of `request`, given the
response of the HTTP call.  (The unconditional `lastRateLimit` store is a
field write not involved in any claim and is not modelled.) -/
def request {T : Type} (resp : HttpResponse T) :
    Except GitHubClientError (T × GitHubRateLimit) :=
  let rateLimit := parseRateLimitHeaders resp.headers
  if resp.ok then Except.ok (resp.body, rateLimit)
  else if resp.status = 403 ∧ rateLimit.remaining = 0 then
    Except.error (GitHubClientError.rateLimitError (rateLimitMessage rateLimit) rateLimit)
  else if resp.status = 404 then
    Except.error (GitHubClientError.notFoundError
      (jsOrString resp.errorBody.message "Resource not found"))
  else if resp.status = 401 then
    Except.error (GitHubClientError.authError
      (jsOrString resp.errorBody.message "Authentication failed"))
  else
    Except.error (GitHubClientError.apiError
      (jsOrString resp.errorBody.message
        ("GitHub API error: " ++ toString resp.status))
      (some resp.status))

/-! ## Error taxonomy (src/lib/github/errors.ts) and transport failures -/

/-- Error type enumeration of the taxonomy module. -/
inductive GitHubErrorType where
  | RATE_LIMIT
  | NOT_FOUND
  | NETWORK
  | AUTH
  | SERVER
  | UNKNOWN
deriving DecidableEq, Repr

/-- A value of the taxonomy module's `GitHubApiError` hierarchy, carrying
the fields every consumer-facing helper reads. -/
structure TaxonomyError where
  name : String
  message : String
  type : GitHubErrorType
  statusCode : Option Nat
  isRetryable : Bool
deriving DecidableEq, Repr

/-- `new GitHubNetworkError(message, originalError)` as built by
`toGitHubError`: the message falls back through `originalError.message`
(the same string there) to the default. -/
def mkNetworkError (message : String) : TaxonomyError :=
  { name := "GitHubNetworkError"
    message := if message = "" then "A network error occurred" else message
    type := GitHubErrorType.NETWORK
    statusCode := none
    isRetryable := true }

/-- The values `toGitHubError` can receive: an already-typed taxonomy
error, a `TypeError` (what `fetch` rejects with), another `Error`, or any
other value (kept as its `String(...)` rendering). -/
inductive JsException where
  | typeError (message : String)
  | jsError (message : String)
  | taxonomyError (e : TaxonomyError)
  | otherValue (stringValue : String)
deriving DecidableEq, Repr

/-- `toGitHubError(error)`: pass through typed errors, map `TypeError` to
`GitHubNetworkError`, wrap other `Error`s and other values as `UNKNOWN`. -/
def toGitHubError : JsException → TaxonomyError
  | .taxonomyError e => e
  | .typeError msg => mkNetworkError msg
  | .jsError msg =>
    { name := "GitHubApiError", message := msg,
      type := GitHubErrorType.UNKNOWN, statusCode := none, isRetryable := false }
  | .otherValue s =>
    { name := "GitHubApiError",
      message := if s = "" then "An unexpected error occurred" else s,
      type := GitHubErrorType.UNKNOWN, statusCode := none, isRetryable := false }

/-- What a caller of `request` can observe as a failure: either the raw
exception of the `fetch` call propagating unchanged, or a typed error
thrown by the client's own classification. -/
inductive RequestFailure where
  | raw (e : JsException)
  | typed (e : GitHubClientError)
deriving DecidableEq, Repr

/-- `request` including the transport boundary: `await fetch(...)` is not
wrapped in any `try`/`catch`, so a rejected fetch propagates as the raw
exception; only an HTTP-level response reaches the classification code. -/
def requestWithTransport {T : Type}
    (fetchOutcome : Except JsException (HttpResponse T)) :
    Except RequestFailure (T × GitHubRateLimit) :=
  match fetchOutcome with
  | Except.error e => Except.error (RequestFailure.raw e)
  | Except.ok resp =>
    match request resp with
    | Except.ok r => Except.ok r
    | Except.error ge => Except.error (RequestFailure.typed ge)

/-! ## `GitHubClient.getFileContent` (src/lib/github.ts lines 393-412)

The method normalizes the path, issues the contents request through
`this.request` and parses the result.  It reads and writes no cache —
`this.cache` is not mentioned anywhere in its body — so the model passes
the cache through unchanged and always reports that an HTTP request was
issued (the final `Bool`).  The fetch is modelled by the response the
contents endpoint would return. -/
def getFileContentModel {ρ : Type} (c : GitHubCache ρ)
    (fetched : GitHubFileContent) (path : String) :
    ParsedFileContent × GitHubCache ρ × Bool :=
  let normalizedPath := stripLeadingSlashes path
  (parseFileContent fetched normalizedPath, c, true)

/-- Discriminator for `RequestFailure`. -/
def RequestFailure.isTypedError : RequestFailure → Bool
  | .typed _ => true
  | .raw _ => false

/-! ## Helper lemmas -/

theorem dropWhile_head?_not {α : Type} (p : α → Bool) (l : List α) :
    ∀ x, (l.dropWhile p).head? = some x → p x = false := by
  induction l with
  | nil => intro x h; simp at h
  | cons a t ih =>
    intro x h
    rw [List.dropWhile_cons] at h
    by_cases hp : p a
    · exact ih x (by simpa [hp] using h)
    · have hp' : p a = false := by simpa using hp
      rw [hp'] at h
      simp at h
      rw [← h]
      exact hp'

theorem dropWhile_eq_self_of_head {α : Type} (p : α → Bool) (l : List α)
    (h : ∀ x, l.head? = some x → p x = false) : l.dropWhile p = l := by
  cases l with
  | nil => rfl
  | cons a t => rw [List.dropWhile_cons, h a rfl]; simp

theorem getLast?_dropWhile_ne_nil {α : Type} (p : α → Bool) (l : List α)
    (h : l.dropWhile p ≠ []) : (l.dropWhile p).getLast? = l.getLast? := by
  induction l with
  | nil => simp at h
  | cons a t ih =>
    rw [List.dropWhile_cons] at h ⊢
    by_cases hp : p a
    · simp only [hp, if_true] at h ⊢
      rw [ih h]
      cases t with
      | nil => simp [List.dropWhile] at h
      | cons b t' => simp
    · have hp' : p a = false := by simpa using hp
      simp [hp']

theorem stripBoth_idem_chars (q : Char → Bool) (l : List Char) :
    (((((l.dropWhile q).reverse.dropWhile q).reverse.dropWhile q).reverse.dropWhile
        q).reverse) =
      ((l.dropWhile q).reverse.dropWhile q).reverse := by
  have hB1 : (((l.dropWhile q).reverse.dropWhile q).reverse.dropWhile q) =
      ((l.dropWhile q).reverse.dropWhile q).reverse := by
    apply dropWhile_eq_self_of_head
    intro x hx
    rw [List.head?_reverse] at hx
    by_cases hSnil : (l.dropWhile q).reverse.dropWhile q = []
    · rw [hSnil] at hx; simp at hx
    · rw [getLast?_dropWhile_ne_nil _ _ hSnil, List.getLast?_reverse] at hx
      exact dropWhile_head?_not q l x hx
  rw [hB1, List.reverse_reverse]
  have hS2 : ((l.dropWhile q).reverse.dropWhile q).dropWhile q =
      (l.dropWhile q).reverse.dropWhile q := by
    apply dropWhile_eq_self_of_head
    intro x hx
    exact dropWhile_head?_not q (l.dropWhile q).reverse x hx
  rw [hS2]

theorem stripSlashesBoth_idem (p : String) :
    stripSlashesBoth (stripSlashesBoth p) = stripSlashesBoth p :=
  congrArg String.mk (stripBoth_idem_chars (· == '/') p.toList)

theorem mapGet_mapSet_self {α : Type} (m : List (String × α)) (k : String)
    (v : α) : mapGet (mapSet m k v) k = some v := by
  induction m with
  | nil => simp [mapSet, mapGet]
  | cons e rest ih =>
    obtain ⟨k', v'⟩ := e
    by_cases h : k' = k
    · simp [mapSet, mapGet, h]
    · simp [mapSet, mapGet, h, ih]

theorem mem_keys_mapSet {α : Type} (m : List (String × α)) (k : String) (v : α)
    (x : String) :
    x ∈ (mapSet m k v).map Prod.fst ↔ x ∈ m.map Prod.fst ∨ x = k := by
  induction m with
  | nil => simp [mapSet]
  | cons e rest ih =>
    obtain ⟨k', v'⟩ := e
    by_cases h : k' = k
    · subst h
      rw [mapSet, if_pos rfl]
      simp only [List.map_cons, List.mem_cons]
      tauto
    · rw [mapSet, if_neg h]
      simp only [List.map_cons, List.mem_cons, ih]
      tauto

theorem nodup_keys_mapSet {α : Type} (m : List (String × α)) (k : String)
    (v : α) (h : (m.map Prod.fst).Nodup) :
    ((mapSet m k v).map Prod.fst).Nodup := by
  induction m with
  | nil => simp [mapSet]
  | cons e rest ih =>
    obtain ⟨k', v'⟩ := e
    rw [List.map_cons, List.nodup_cons] at h
    by_cases hk : k' = k
    · subst hk
      rw [mapSet, if_pos rfl, List.map_cons, List.nodup_cons]
      exact h
    · rw [mapSet, if_neg hk, List.map_cons, List.nodup_cons]
      refine ⟨?_, ih h.2⟩
      rw [mem_keys_mapSet]
      rintro (hmem | heq)
      · exact h.1 hmem
      · exact hk heq

theorem mapDelete_eq_self_of_not_mem {α : Type} (m : List (String × α))
    (k : String) (h : k ∉ m.map Prod.fst) : mapDelete m k = m := by
  induction m with
  | nil => rfl
  | cons e rest ih =>
    rw [List.map_cons, List.mem_cons] at h
    push_neg at h
    have hne : e.1 ≠ k := fun hh => h.1 hh.symm
    simp [mapDelete, hne, ih h.2]

theorem length_mapDelete_of_get {α : Type} (m : List (String × α)) (k : String)
    (hnd : (m.map Prod.fst).Nodup) (v : α) (h : mapGet m k = some v) :
    (mapDelete m k).length + 1 = m.length := by
  induction m with
  | nil => simp [mapGet] at h
  | cons e rest ih =>
    obtain ⟨k', v'⟩ := e
    rw [List.map_cons, List.nodup_cons] at hnd
    by_cases hk : k' = k
    · subst hk
      rw [mapDelete, if_pos rfl,
        mapDelete_eq_self_of_not_mem rest k' hnd.1]
      simp
    · have h' : mapGet rest k = some v := by
        simpa [mapGet, hk] using h
      rw [mapDelete, if_neg hk]
      simp only [List.length_cons]
      rw [← ih hnd.2 h']

theorem mapGet_filter_not {α : Type} (m : List (String × α))
    (p : String → Bool) (k : String) :
    mapGet (m.filter fun e => !(p e.1)) k =
      if p k then none else mapGet m k := by
  induction m with
  | nil => cases hp : p k <;> simp [mapGet, hp]
  | cons e rest ih =>
    obtain ⟨k1, v1⟩ := e
    rw [List.filter_cons]
    by_cases hek : k1 = k
    · subst hek
      cases hp : p k1
      · simp [mapGet, hp]
      · simp [mapGet, hp, ih]
    · cases hp : p k1
      · simp [mapGet, hp, hek, ih]
      · simp [mapGet, hp, hek, ih]

theorem mapGet_mapDelete {α : Type} (m : List (String × α)) (k k' : String) :
    mapGet (mapDelete m k) k' = if k' = k then none else mapGet m k' := by
  induction m with
  | nil => cases h : decide (k' = k) <;> simp_all [mapGet, mapDelete]
  | cons e rest ih =>
    rw [mapDelete]
    by_cases hek : e.1 = k
    · rw [if_pos hek, ih]
      by_cases hk : k' = k
      · simp [hk]
      · rw [if_neg hk, if_neg hk, mapGet,
          if_neg (by rw [hek]; exact fun hh => hk hh.symm)]
    · rw [if_neg hek]
      by_cases hek' : e.1 = k'
      · rw [mapGet, if_pos hek', mapGet, if_pos hek',
          if_neg (by rw [← hek']; exact fun hh => hek hh)]
      · rw [mapGet, if_neg hek', ih, mapGet, if_neg hek']

/-- The shared-read lemma: a just-written entry read back while
`now - t < ttl` is a hit that leaves the space unchanged. -/
theorem spaceGet_set_fresh {α : Type} (m : List (String × CacheEntry α))
    (key : String) (data : α) (t now ttl : Int) (h : now - t < ttl) :
    spaceGet (spaceSet m key data t ttl) key now =
      (some data, spaceSet m key data t ttl) := by
  simp [spaceGet, spaceSet, mapGet_mapSet_self, h]

/-- The shared-read lemma: a just-written entry read back once
`now - t ≥ ttl` misses, is deleted, and the space shrinks by one. -/
theorem spaceGet_set_expired {α : Type} (m : List (String × CacheEntry α))
    (key : String) (data : α) (t now ttl : Int)
    (hnd : (m.map Prod.fst).Nodup) (h : ¬ now - t < ttl) :
    (spaceGet (spaceSet m key data t ttl) key now).1 = none ∧
    (spaceGet (spaceSet m key data t ttl) key now).2.length + 1 =
      (spaceSet m key data t ttl).length := by
  have hget := mapGet_mapSet_self m key (⟨data, t, ttl⟩ : CacheEntry α)
  constructor
  · simp [spaceGet, spaceSet, hget, h]
  · simp only [spaceGet, spaceSet, hget, h, if_false]
    exact length_mapDelete_of_get _ _ (nodup_keys_mapSet _ _ _ hnd) _ hget

/-- Well-formedness of the reachable cache states: each space's keys are
distinct (JavaScript `Map` keys are unique). -/
def CacheWF {ρ : Type} (c : GitHubCache ρ) : Prop :=
  (c.treeCache.map Prod.fst).Nodup ∧
  (c.fileContentByShaCache.map Prod.fst).Nodup ∧
  (c.fileContentByPathCache.map Prod.fst).Nodup ∧
  (c.repositoryCache.map Prod.fst).Nodup

/-! ## C1 -/

/-- A 403 response whose rate-limit headers carry `remaining = 0`. -/
def rlResp : HttpResponse Nat :=
  { ok := false, status := 403,
    headers := ⟨some 60, some 0, some 1700000000, some 60⟩,
    errorBody := ⟨some "API rate limit exceeded"⟩, body := 0 }

/-- A 403 response whose rate-limit headers carry `remaining = 5`. -/
def rlResp5 : HttpResponse Nat :=
  { ok := false, status := 403,
    headers := ⟨some 60, some 5, some 1700000000, some 55⟩,
    errorBody := ⟨some "Forbidden"⟩, body := 0 }

/-- C1: on a non-success 403 response, if the parsed rate-limit headers have
`remaining = 0` then `request` throws the `RATE_LIMIT` error carrying the
rate-limit snapshot and a message that ends in the computed ISO reset
timestamp; if `remaining > 0` it instead throws the generic API error
carrying status 403 and never a rate-limit error. -/
theorem rate_limit_classification {T : Type} (resp : HttpResponse T)
    (hok : resp.ok = false) (hst : resp.status = 403) :
    ((parseRateLimitHeaders resp.headers).remaining = 0 →
      request resp = Except.error
        (GitHubClientError.rateLimitError
          (rateLimitMessage (parseRateLimitHeaders resp.headers))
          (parseRateLimitHeaders resp.headers)) ∧
      (∃ lead : String,
        rateLimitMessage (parseRateLimitHeaders resp.headers) =
          lead ++ toISOString ((parseRateLimitHeaders resp.headers).reset * 1000))) ∧
    (0 < (parseRateLimitHeaders resp.headers).remaining →
      request resp = Except.error
        (GitHubClientError.apiError
          (jsOrString resp.errorBody.message
            ("GitHub API error: " ++ toString resp.status))
          (some resp.status)) ∧
      (∀ ge : GitHubClientError,
        request resp = Except.error ge → ge.isRateLimit = false)) := by
  constructor
  · intro h0
    refine ⟨?_, "GitHub API rate limit exceeded. Resets at ", rfl⟩
    simp [request, hok, hst, h0]
  · intro hpos
    have hrem : ¬ (parseRateLimitHeaders resp.headers).remaining = 0 := by omega
    have hreq : request resp = Except.error
        (GitHubClientError.apiError
          (jsOrString resp.errorBody.message
            ("GitHub API error: " ++ toString resp.status))
          (some resp.status)) := by
      simp [request, hok, hst, hrem]
    refine ⟨hreq, ?_⟩
    intro ge hge
    rw [hreq] at hge
    cases hge
    rfl

/-- C1 witness: concrete 403 responses with `remaining = 0` and
`remaining = 5`. -/
theorem rate_limit_classification_witness :
    rlResp.ok = false ∧ rlResp.status = 403 ∧
    (parseRateLimitHeaders rlResp.headers).remaining = 0 ∧
    request rlResp = Except.error
      (GitHubClientError.rateLimitError
        (rateLimitMessage (parseRateLimitHeaders rlResp.headers))
        (parseRateLimitHeaders rlResp.headers)) ∧
    rlResp5.ok = false ∧ rlResp5.status = 403 ∧
    0 < (parseRateLimitHeaders rlResp5.headers).remaining ∧
    request rlResp5 = Except.error
      (GitHubClientError.apiError
        (jsOrString rlResp5.errorBody.message
          ("GitHub API error: " ++ toString rlResp5.status))
        (some rlResp5.status)) := by
  refine ⟨rfl, rfl, rfl, ?_, rfl, rfl, by decide, ?_⟩
  · exact ((rate_limit_classification rlResp rfl rfl).1 rfl).1
  · exact ((rate_limit_classification rlResp5 rfl rfl).2 (by decide)).1

/-! ## C2 -/

/-- A sample parsed tree used as cache payload in concrete instances. -/
def sampleTree : ParsedRepositoryTree := ⟨"treesha", false, [], [], []⟩

/-- A sample parsed file content with a non-empty sha. -/
def sampleFile : ParsedFileContent :=
  ⟨"a.ts", "src/a.ts", "X", 5, BlobEncoding.base64, some "hello", false,
    "aGVsbG8="⟩

/-- The path setter leaves the path space equal to a plain `spaceSet`,
whether or not it also writes the sha space. -/
theorem setFileContentByPath_pathCache {ρ : Type} (c : GitHubCache ρ)
    (owner repo path : String) (ref : Option String)
    (data : ParsedFileContent) (ttl t : Int) :
    (c.setFileContentByPath owner repo path ref data ttl t).fileContentByPathCache =
      spaceSet c.fileContentByPathCache (getFileByPathKey owner repo path ref)
        data t ttl := by
  rw [GitHubCache.setFileContentByPath]
  split <;> rfl

/-- C2: in every space, a `set` at time `t` followed by a `get` at the same
time returns the stored value; a `get` once the elapsed time `d` reaches the
entry's ttl returns `null` and lazily deletes the entry, so the space's
`getStats` count drops by one. -/
theorem cache_ttl_lazy_expiry {ρ : Type} (c : GitHubCache ρ)
    (owner repo path sha : String) (ref : Option String)
    (treeData : ParsedRepositoryTree) (fileData : ParsedFileContent)
    (repoData : ρ) (t d ttl : Int)
    (hwf : CacheWF c) (httl : 0 < ttl) (hd : ttl ≤ d) :
    (((c.setTree owner repo ref treeData ttl t).getTree
        owner repo ref t).1 = some treeData ∧
      ((c.setTree owner repo ref treeData ttl t).getTree
        owner repo ref (t + d)).1 = none ∧
      ((c.setTree owner repo ref treeData ttl t).getTree
          owner repo ref (t + d)).2.getStats.treeEntries + 1 =
        (c.setTree owner repo ref treeData ttl t).getStats.treeEntries) ∧
    (((c.setFileContentBySha owner repo sha fileData ttl t).getFileContentBySha
        owner repo sha t).1 = some fileData ∧
      ((c.setFileContentBySha owner repo sha fileData ttl t).getFileContentBySha
        owner repo sha (t + d)).1 = none ∧
      ((c.setFileContentBySha owner repo sha fileData ttl t).getFileContentBySha
          owner repo sha (t + d)).2.getStats.fileContentByShaEntries + 1 =
        (c.setFileContentBySha owner repo sha fileData ttl
          t).getStats.fileContentByShaEntries) ∧
    (((c.setFileContentByPath owner repo path ref fileData ttl
        t).getFileContentByPath owner repo path ref t).1 = some fileData ∧
      ((c.setFileContentByPath owner repo path ref fileData ttl
        t).getFileContentByPath owner repo path ref (t + d)).1 = none ∧
      ((c.setFileContentByPath owner repo path ref fileData ttl
          t).getFileContentByPath owner repo path ref
          (t + d)).2.getStats.fileContentByPathEntries + 1 =
        (c.setFileContentByPath owner repo path ref fileData ttl
          t).getStats.fileContentByPathEntries) ∧
    (((c.setRepository owner repo repoData ttl t).getRepository
        owner repo t).1 = some repoData ∧
      ((c.setRepository owner repo repoData ttl t).getRepository
        owner repo (t + d)).1 = none ∧
      ((c.setRepository owner repo repoData ttl t).getRepository
          owner repo (t + d)).2.getStats.repositoryEntries + 1 =
        (c.setRepository owner repo repoData ttl t).getStats.repositoryEntries) := by
  obtain ⟨hnd1, hnd2, hnd3, hnd4⟩ := hwf
  have hfresh : t - t < ttl := by omega
  have hexp : ¬ (t + d - t < ttl) := by omega
  refine ⟨⟨?_, ?_, ?_⟩, ⟨?_, ?_, ?_⟩, ⟨?_, ?_, ?_⟩, ⟨?_, ?_, ?_⟩⟩
  · simp only [GitHubCache.getTree, GitHubCache.setTree]
    rw [spaceGet_set_fresh _ _ _ _ _ _ hfresh]
  · simp only [GitHubCache.getTree, GitHubCache.setTree]
    exact (spaceGet_set_expired _ _ _ _ _ _ hnd1 hexp).1
  · simp only [GitHubCache.getTree, GitHubCache.setTree, GitHubCache.getStats]
    exact (spaceGet_set_expired _ _ _ _ _ _ hnd1 hexp).2
  · simp only [GitHubCache.getFileContentBySha, GitHubCache.setFileContentBySha]
    rw [spaceGet_set_fresh _ _ _ _ _ _ hfresh]
  · simp only [GitHubCache.getFileContentBySha, GitHubCache.setFileContentBySha]
    exact (spaceGet_set_expired _ _ _ _ _ _ hnd2 hexp).1
  · simp only [GitHubCache.getFileContentBySha, GitHubCache.setFileContentBySha,
      GitHubCache.getStats]
    exact (spaceGet_set_expired _ _ _ _ _ _ hnd2 hexp).2
  · simp only [GitHubCache.getFileContentByPath, setFileContentByPath_pathCache]
    rw [spaceGet_set_fresh _ _ _ _ _ _ hfresh]
  · simp only [GitHubCache.getFileContentByPath, setFileContentByPath_pathCache]
    exact (spaceGet_set_expired _ _ _ _ _ _ hnd3 hexp).1
  · simp only [GitHubCache.getFileContentByPath, setFileContentByPath_pathCache,
      GitHubCache.getStats]
    exact (spaceGet_set_expired _ _ _ _ _ _ hnd3 hexp).2
  · simp only [GitHubCache.getRepository, GitHubCache.setRepository]
    rw [spaceGet_set_fresh _ _ _ _ _ _ hfresh]
  · simp only [GitHubCache.getRepository, GitHubCache.setRepository]
    exact (spaceGet_set_expired _ _ _ _ _ _ hnd4 hexp).1
  · simp only [GitHubCache.getRepository, GitHubCache.setRepository,
      GitHubCache.getStats]
    exact (spaceGet_set_expired _ _ _ _ _ _ hnd4 hexp).2

/-- C2 witness: the tree space of an empty cache, with the default tree TTL,
at `t = 0` and `d = ttl`. -/
theorem cache_ttl_lazy_expiry_witness :
    CacheWF (GitHubCache.empty Nat) ∧ (0 : Int) < CACHE_DURATIONS_TREE ∧
    CACHE_DURATIONS_TREE ≤ CACHE_DURATIONS_TREE ∧
    (((GitHubCache.empty Nat).setTree "o" "r" none sampleTree
        CACHE_DURATIONS_TREE 0).getTree "o" "r" none 0).1 = some sampleTree ∧
    (((GitHubCache.empty Nat).setTree "o" "r" none sampleTree
        CACHE_DURATIONS_TREE 0).getTree "o" "r" none
        (0 + CACHE_DURATIONS_TREE)).1 = none := by
  have H := cache_ttl_lazy_expiry (GitHubCache.empty Nat) "o" "r" "p" "s" none
    sampleTree sampleFile (7 : Nat) 0 CACHE_DURATIONS_TREE CACHE_DURATIONS_TREE
    ⟨List.nodup_nil, List.nodup_nil, List.nodup_nil, List.nodup_nil⟩
    (by decide) (by omega)
  exact ⟨⟨List.nodup_nil, List.nodup_nil, List.nodup_nil, List.nodup_nil⟩,
    by decide, by omega, H.1.1, H.1.2.1⟩

/-! ## C3 -/

/-- C3 counterexample: `invalidateRepository("a","r1")` removes the tree
entry of the repository `("a","r12")`, whose key merely contains the
substring `a/r1` — the claim says such entries must not be removed. -/
theorem invalidate_repository_substring_cex :
    (((GitHubCache.empty Nat).setTree "a" "r12" none sampleTree
        CACHE_DURATIONS_TREE 0).getTree "a" "r12" none 0).1 = some sampleTree ∧
    ((((GitHubCache.empty Nat).setTree "a" "r12" none sampleTree
        CACHE_DURATIONS_TREE 0).invalidateRepository "a" "r1").getTree
        "a" "r12" none 0).1 = none := by
  decide

/-- C3 amended: `invalidateRepository(owner, repo)` removes, from the tree
and both file spaces, exactly the entries whose key contains
`"{owner}/{repo}"` as a substring (and the exact key from the repository
space).  Entries for `("a","r2")` and `("b","r1")` therefore survive
`invalidateRepository("a","r1")`, but entries of a repository whose name
merely embeds the substring — such as `("a","r12")` — are removed too. -/
theorem invalidate_repository_scope {ρ : Type} (c : GitHubCache ρ)
    (owner repo k : String) :
    (mapGet (c.invalidateRepository owner repo).treeCache k =
      if jsIncludes k (owner ++ "/" ++ repo) then none
      else mapGet c.treeCache k) ∧
    (mapGet (c.invalidateRepository owner repo).fileContentByShaCache k =
      if jsIncludes k (owner ++ "/" ++ repo) then none
      else mapGet c.fileContentByShaCache k) ∧
    (mapGet (c.invalidateRepository owner repo).fileContentByPathCache k =
      if jsIncludes k (owner ++ "/" ++ repo) then none
      else mapGet c.fileContentByPathCache k) ∧
    (mapGet (c.invalidateRepository owner repo).repositoryCache k =
      if k = getRepositoryCacheKey owner repo then none
      else mapGet c.repositoryCache k) ∧
    (((((((GitHubCache.empty Nat).setTree "a" "r2" none sampleTree
          CACHE_DURATIONS_TREE 0).setTree "b" "r1" none sampleTree
          CACHE_DURATIONS_TREE 0).setTree "a" "r12" none sampleTree
          CACHE_DURATIONS_TREE 0).invalidateRepository "a" "r1").getTree
          "a" "r2" none 0).1 = some sampleTree ∧
      ((((((GitHubCache.empty Nat).setTree "a" "r2" none sampleTree
          CACHE_DURATIONS_TREE 0).setTree "b" "r1" none sampleTree
          CACHE_DURATIONS_TREE 0).setTree "a" "r12" none sampleTree
          CACHE_DURATIONS_TREE 0).invalidateRepository "a" "r1").getTree
          "b" "r1" none 0).1 = some sampleTree ∧
      ((((((GitHubCache.empty Nat).setTree "a" "r2" none sampleTree
          CACHE_DURATIONS_TREE 0).setTree "b" "r1" none sampleTree
          CACHE_DURATIONS_TREE 0).setTree "a" "r12" none sampleTree
          CACHE_DURATIONS_TREE 0).invalidateRepository "a" "r1").getTree
          "a" "r12" none 0).1 = none) := by
  refine ⟨?_, ?_, ?_, ?_, by decide, by decide, by decide⟩
  · exact mapGet_filter_not c.treeCache
      (fun key => jsIncludes key (owner ++ "/" ++ repo)) k
  · exact mapGet_filter_not c.fileContentByShaCache
      (fun key => jsIncludes key (owner ++ "/" ++ repo)) k
  · exact mapGet_filter_not c.fileContentByPathCache
      (fun key => jsIncludes key (owner ++ "/" ++ repo)) k
  · exact mapGet_mapDelete c.repositoryCache (getRepositoryCacheKey owner repo) k

/-! ## C4 -/

/-- C4: after `setFileContentByPath` whose data carries a non-empty sha
`X`, a sha lookup for `X` performed before the sha entry's own (24 h
default) TTL expires returns the same content, and the sha-addressed
cached-fetch wrapper answers from the cache without invoking its fetch
function. -/
theorem content_addressable_coupling {ρ : Type} (c : GitHubCache ρ)
    (owner repo path : String) (ref : Option String)
    (data other : ParsedFileContent) (ttl t t' : Int)
    (hsha : data.sha ≠ "")
    (hfresh : t' - t < CACHE_DURATIONS_FILE_CONTENT_BY_SHA) :
    ((c.setFileContentByPath owner repo path ref data ttl t).getFileContentBySha
      owner repo data.sha t').1 = some data ∧
    (cachedFetchFileBySha (c.setFileContentByPath owner repo path ref data ttl t)
      owner repo data.sha t' other).1 = data ∧
    (cachedFetchFileBySha (c.setFileContentByPath owner repo path ref data ttl t)
      owner repo data.sha t' other).2.2 = false := by
  have hkey : (c.setFileContentByPath owner repo path ref data ttl
      t).fileContentByShaCache =
      spaceSet c.fileContentByShaCache (getFileByShaKey owner repo data.sha)
        data t CACHE_DURATIONS_FILE_CONTENT_BY_SHA := by
    rw [GitHubCache.setFileContentByPath]
    simp only [if_pos hsha]
    rfl
  have hget : ((c.setFileContentByPath owner repo path ref data ttl
      t).getFileContentBySha owner repo data.sha t').1 = some data := by
    simp only [GitHubCache.getFileContentBySha, hkey]
    rw [spaceGet_set_fresh _ _ _ _ _ _ hfresh]
  refine ⟨hget, ?_, ?_⟩
  · simp [cachedFetchFileBySha, hget]
  · simp [cachedFetchFileBySha, hget]

/-- C4 witness: a concrete path store with sha `"X"` at `t = 0`, sha lookup
at `t' = 0`. -/
theorem content_addressable_coupling_witness :
    sampleFile.sha ≠ "" ∧
    (0 : Int) - 0 < CACHE_DURATIONS_FILE_CONTENT_BY_SHA ∧
    (((GitHubCache.empty Nat).setFileContentByPath "o" "r" "src/a.ts" none
        sampleFile CACHE_DURATIONS_FILE_CONTENT_BY_PATH 0).getFileContentBySha
        "o" "r" sampleFile.sha 0).1 = some sampleFile := by
  refine ⟨by decide, by decide, ?_⟩
  exact (content_addressable_coupling (GitHubCache.empty Nat) "o" "r" "src/a.ts"
    none sampleFile sampleFile CACHE_DURATIONS_FILE_CONTENT_BY_PATH 0 0
    (by decide) (by decide)).1

/-! ## C9 -/

/-- C9 counterexample: a transport failure of `fetch` (a `TypeError`)
propagates out of `request` as the raw exception, not as any typed error —
`request` wraps the `fetch` call in no `try`/`catch`. -/
theorem request_transport_raw_cex :
    requestWithTransport (T := Nat)
      (Except.error (JsException.typeError "Failed to fetch")) =
      Except.error (RequestFailure.raw (JsException.typeError "Failed to fetch")) ∧
    (RequestFailure.raw (JsException.typeError "Failed to fetch")).isTypedError
      = false :=
  ⟨rfl, rfl⟩

/-- C9 amended: every transport-level failure propagates to the caller as
the raw exception; the `toGitHubError` normalizer of the errors module
would map a `TypeError` to a retryable `NETWORK` taxonomy error, but
`GitHubClient.request` never invokes it. -/
theorem request_transport_amended {T : Type} (e : JsException) (m : String) :
    requestWithTransport (T := T) (Except.error e) =
      Except.error (RequestFailure.raw e) ∧
    (toGitHubError (JsException.typeError m)).type = GitHubErrorType.NETWORK ∧
    (toGitHubError (JsException.typeError m)).isRetryable = true :=
  ⟨rfl, rfl, rfl⟩

/-! ## C5 -/

/-- C5 (code bug): `parseBlobContent` on a blob with `encoding: 'utf-8'`
whose content the sniff classifies binary (here `"AAAA"`, which base64-decodes
to three `0x00` bytes) produces `isBinary = true` together with a non-null
`content` — violating the documented invariant `isBinary = true ⇒
content = null` (the `content` field's own doc comment says "null for binary
files").  `rawContent` still preserves the original payload. -/
theorem parse_blob_utf8_binary_nonnull :
    (parseBlobContent
      ⟨"deadbeef", "n", 3, "u", "AAAA", BlobEncoding.utf8⟩).isBinary = true ∧
    (parseBlobContent
      ⟨"deadbeef", "n", 3, "u", "AAAA", BlobEncoding.utf8⟩).content =
      some "AAAA" ∧
    (parseBlobContent
      ⟨"deadbeef", "n", 3, "u", "AAAA", BlobEncoding.utf8⟩).rawContent =
      "AAAA" := by
  decide

/-! ## C6 -/

/-- A cached file-by-path entry, distinct from what the network returns. -/
def cachedSample : ParsedFileContent :=
  ⟨"a.ts", "src/a.ts", "Z", 6, BlobEncoding.base64, some "cached", false,
    "Y2FjaGVk"⟩

/-- The contents-API response the mocked fetch returns. -/
def fetchedSample : GitHubFileContent :=
  ⟨"a.ts", "src/a.ts", "Y", 5, "u", "aGVsbG8=", BlobEncoding.base64⟩

/-- A cache already holding a fresh file-by-path entry for
`("o","r","src/a.ts")`. -/
def c0path : GitHubCache Nat :=
  (GitHubCache.empty Nat).setFileContentByPath "o" "r" "src/a.ts" none
    cachedSample CACHE_DURATIONS_FILE_CONTENT_BY_PATH 0

/-- C6 counterexample: with a valid cached entry present for the requested
path, `getFileContent` still issues the HTTP request, returns the freshly
fetched parse rather than the cached value, and leaves the cache untouched
— the method contains no cache check or store. -/
theorem get_file_content_no_cache_cex :
    (c0path.getFileContentByPath "o" "r" "src/a.ts" none 0).1 =
      some cachedSample ∧
    (getFileContentModel c0path fetchedSample "src/a.ts").2.2 = true ∧
    (getFileContentModel c0path fetchedSample "src/a.ts").2.1 = c0path ∧
    (getFileContentModel c0path fetchedSample "src/a.ts").1 ≠ cachedSample := by
  decide

/-- Helper shared by the cache-coupling results: a sha lookup after a path
store whose data carries that (non-empty) sha hits while the sha TTL has
not elapsed. -/
theorem shaGet_after_setByPath {ρ : Type} (c : GitHubCache ρ)
    (owner repo path : String) (ref : Option String)
    (data : ParsedFileContent) (ttl t t' : Int) (hsha : data.sha ≠ "")
    (hfresh : t' - t < CACHE_DURATIONS_FILE_CONTENT_BY_SHA) :
    ((c.setFileContentByPath owner repo path ref data ttl t).getFileContentBySha
      owner repo data.sha t').1 = some data := by
  have hkey : (c.setFileContentByPath owner repo path ref data ttl
      t).fileContentByShaCache =
      spaceSet c.fileContentByShaCache (getFileByShaKey owner repo data.sha)
        data t CACHE_DURATIONS_FILE_CONTENT_BY_SHA := by
    rw [GitHubCache.setFileContentByPath]
    simp only [if_pos hsha]
    rfl
  simp only [GitHubCache.getFileContentBySha, hkey]
  rw [spaceGet_set_fresh _ _ _ _ _ _ hfresh]

/-- C6 amended: `getFileContent` itself strips leading slashes, always
issues the HTTP contents request and neither reads nor writes the cache;
the check-fetch-store behaviour the claim describes belongs to the separate
`cachedFetchFileByPath` wrapper, which on a valid hit answers without
fetching and on a miss fetches, stores via `setFileContentByPath` (thereby
also populating the file-by-sha space) and returns the fetched value. -/
theorem get_file_content_cache_amended {ρ : Type} (c : GitHubCache ρ)
    (fetched : GitHubFileContent) (owner repo path : String)
    (ref : Option String) (now : Int) (fetchRes : ParsedFileContent) :
    getFileContentModel c fetched path =
      (parseFileContent fetched (stripLeadingSlashes path), c, true) ∧
    (∀ d, (c.getFileContentByPath owner repo path ref now).1 = some d →
      cachedFetchFileByPath c owner repo path ref now fetchRes =
        (d, (c.getFileContentByPath owner repo path ref now).2, false)) ∧
    ((c.getFileContentByPath owner repo path ref now).1 = none →
      cachedFetchFileByPath c owner repo path ref now fetchRes =
        (fetchRes,
          ((c.getFileContentByPath owner repo path ref now).2).setFileContentByPath
            owner repo path ref fetchRes CACHE_DURATIONS_FILE_CONTENT_BY_PATH now,
          true)) ∧
    ((c.getFileContentByPath owner repo path ref now).1 = none →
      fetchRes.sha ≠ "" →
      (((cachedFetchFileByPath c owner repo path ref now
          fetchRes).2.1).getFileContentBySha owner repo fetchRes.sha now).1 =
        some fetchRes) := by
  refine ⟨rfl, ?_, ?_, ?_⟩
  · intro d hd
    simp [cachedFetchFileByPath, hd]
  · intro hmiss
    simp [cachedFetchFileByPath, hmiss]
  · intro hmiss hsha
    have heq : (cachedFetchFileByPath c owner repo path ref now fetchRes).2.1 =
        ((c.getFileContentByPath owner repo path ref now).2).setFileContentByPath
          owner repo path ref fetchRes CACHE_DURATIONS_FILE_CONTENT_BY_PATH now := by
      simp [cachedFetchFileByPath, hmiss]
    rw [heq]
    exact shaGet_after_setByPath _ _ _ _ _ _ _ _ _ hsha
      (by simp only [CACHE_DURATIONS_FILE_CONTENT_BY_SHA]; omega)

/-- C6 witness: the hit branch of the wrapper at a concrete cache. -/
theorem get_file_content_cache_amended_witness :
    (c0path.getFileContentByPath "o" "r" "src/a.ts" none 0).1 =
      some cachedSample ∧
    cachedFetchFileByPath c0path "o" "r" "src/a.ts" none 0 sampleFile =
      (cachedSample, (c0path.getFileContentByPath "o" "r" "src/a.ts" none 0).2,
        false) := by
  refine ⟨by decide, ?_⟩
  exact (get_file_content_cache_amended c0path fetchedSample "o" "r" "src/a.ts"
    none 0 sampleFile).2.1 cachedSample (by decide)

/-! ## C8 -/

/-- The `getRepositoryFiles` loop partitions the listing into the mapped
blob entries and the mapped non-blob entries, in upstream order. -/
theorem splitTreeItems_eq (l : List GitHubTreeItem) :
    splitTreeItems l =
      ((l.filter fun i => decide (i.type = GitTreeEntryType.blob)).map
          parseTreeItem,
        (l.filter fun i => !decide (i.type = GitTreeEntryType.blob)).map
          parseTreeItem) := by
  induction l with
  | nil => rfl
  | cons item rest ih =>
    by_cases h : item.type = GitTreeEntryType.blob
    · simp [splitTreeItems, List.filter_cons, h, ih]
    · simp [splitTreeItems, List.filter_cons, h, ih]

/-- The flat listing of the claim's concrete example. -/
def exampleListing : GitHubTree :=
  ⟨"ts", "u",
    [⟨"src", "040000", GitTreeEntryType.tree, "d", none, "u1"⟩,
     ⟨"src/a.ts", "100644", GitTreeEntryType.blob, "f", some 10, "u2"⟩,
     ⟨"README.md", "100644", GitTreeEntryType.blob, "g", some 5, "u3"⟩],
    false⟩

/-- C8: flattening maps blobs to files and trees to directories keeping
upstream order in each partition, derives every item's name as the final
path segment, and returns `all = directories ++ files`; on the claim's
example listing this gives 2 files, 1 directory, `all` in the order
`[src, src/a.ts, README.md]` and name `a.ts` for the file `src/a.ts`. -/
theorem tree_flattening (t : GitHubTree) :
    (parseRepositoryTree t).files =
      (t.tree.filter fun i => decide (i.type = GitTreeEntryType.blob)).map
        parseTreeItem ∧
    (parseRepositoryTree t).directories =
      (t.tree.filter fun i => !decide (i.type = GitTreeEntryType.blob)).map
        parseTreeItem ∧
    (parseRepositoryTree t).all =
      (parseRepositoryTree t).directories ++ (parseRepositoryTree t).files ∧
    (∀ item ∈ (parseRepositoryTree t).all,
      item.name = jsNameFromPath item.path) ∧
    (parseRepositoryTree exampleListing).files.length = 2 ∧
    (parseRepositoryTree exampleListing).directories.length = 1 ∧
    (parseRepositoryTree exampleListing).all.map ParsedTreeItem.path =
      ["src", "src/a.ts", "README.md"] ∧
    ((parseRepositoryTree exampleListing).files.filter
      (fun f => f.path == "src/a.ts")).map ParsedTreeItem.name = ["a.ts"] := by
  refine ⟨?_, ?_, ?_, ?_, by decide, by decide, by decide, by decide⟩
  · simp [parseRepositoryTree, splitTreeItems_eq]
  · simp [parseRepositoryTree, splitTreeItems_eq]
  · simp [parseRepositoryTree, splitTreeItems_eq]
  · intro item hmem
    simp only [parseRepositoryTree, splitTreeItems_eq, List.mem_append,
      List.mem_map] at hmem
    rcases hmem with ⟨i, _, rfl⟩ | ⟨i, _, rfl⟩ <;> rfl

/-- C8 witness: the directory item of the example listing is in `all` and
its name is the final segment of its path. -/
theorem tree_flattening_witness :
    (⟨"src", "src", ParsedItemType.directory, "d", none, "u1"⟩ :
      ParsedTreeItem) ∈ (parseRepositoryTree exampleListing).all ∧
    (⟨"src", "src", ParsedItemType.directory, "d", none, "u1"⟩ :
      ParsedTreeItem).name = jsNameFromPath "src" := by
  refine ⟨by decide, ?_⟩
  exact (tree_flattening exampleListing).2.2.2.1 _ (by decide)

/-! ## C7 -/

/-- Modelled from the spec's words, for comparison with `isBinaryContent`:
decode up to the first 1000 base64 characters to raw BYTES; binary iff some
sampled byte is `0x00`, or more than 10% of the sampled BYTES are control
characters (below `0x09`, or `0x0E`–`0x1F`).  (The spec's "sample fails to
decode" disjunct cannot fire: the decode is total.) -/
def specBinarySniffBytes (base64Content : String) : Bool :=
  let bytes := b64DecodeBytesOfChars (base64Content.toList.take 1000)
  bytes.any (fun b => b == 0) || decide (10 * bytes.countP isCtlUnit > bytes.length)

/-- Base64 of the 36 bytes `01 01` followed by 17 copies of `C3 80`
(UTF-8 for `À`): 2 control bytes out of 36 (≤ 10%), but the decoded string
has 19 characters of which 2 are control (> 10%). -/
def cexPayload : String := "AQHDgMOAw4DDgMOAw4DDgMOAw4DDgMOAw4DDgMOAw4DDgMOA"

/-- C7 counterexample: the sniff counts control characters among the UTF-16
code units of the UTF-8 decoding, not among the raw bytes — on `cexPayload`
the code classifies binary while the claim's byte-level rule does not
(and no sampled byte is `0x00`). -/
theorem binary_sniff_byte_ratio_cex :
    isBinaryContent cexPayload = true ∧
    specBinarySniffBytes cexPayload = false ∧
    (b64DecodeBytesOfChars (cexPayload.toList.take 1000)).any
      (fun b => b == 0) = false := by
  decide

/-- A `0x00` byte in the input always surfaces as a `U+0000` unit in the
replacement decoding (a zero byte is never absorbed by a malformed
sequence: the decoder reprocesses the offending byte). -/
theorem zero_mem_utf8DecodeF (fuel : Nat) :
    ∀ l : List Nat, l.length ≤ fuel → 0 ∈ l → 0 ∈ utf8DecodeF fuel l := by
  induction fuel with
  | zero =>
    intro l hl h0
    rw [List.eq_nil_of_length_eq_zero (Nat.le_zero.mp hl)] at h0
    simp at h0
  | succ n ih =>
    intro l hl h0
    match l with
    | [] => simp at h0
    | b :: rest =>
      rw [List.length_cons, Nat.succ_le_succ_iff] at hl
      rw [List.mem_cons] at h0
      show 0 ∈ utf8DecodeF (n + 1) (b :: rest)
      rw [utf8DecodeF.eq_def]
      simp only
      by_cases hb1 : b < 0x80
      · rw [if_pos hb1]
        rcases h0 with h0 | h0
        · rw [← h0]; exact List.mem_cons_self 0 _
        · exact List.mem_cons_of_mem _ (ih rest hl h0)
      · rw [if_neg hb1]
        have hb0 : ¬ 0 = b := by omega
        replace h0 : 0 ∈ rest := h0.resolve_left hb0
        by_cases hb2 : b < 0xC2
        · rw [if_pos hb2]
          exact List.mem_cons_of_mem _ (ih rest hl h0)
        · rw [if_neg hb2]
          by_cases hb3 : b < 0xE0
          · rw [if_pos hb3]
            cases rest with
            | nil => simp at h0
            | cons c1 rest1 =>
              rw [List.length_cons] at hl
              rw [List.mem_cons] at h0
              show 0 ∈ (if isCont c1 = true then
                  ((b - 0xC0) * 64 + (c1 - 0x80)) :: utf8DecodeF n rest1
                else replacementChar :: utf8DecodeF n (c1 :: rest1))
              by_cases hc1 : isCont c1
              · rw [if_pos hc1]
                simp only [isCont, decide_eq_true_eq] at hc1
                have h1 : 0 ∈ rest1 := h0.resolve_left (by omega)
                exact List.mem_cons_of_mem _ (ih rest1 (by omega) h1)
              · rw [if_neg hc1]
                refine List.mem_cons_of_mem _
                  (ih (c1 :: rest1) (by rw [List.length_cons]; omega) ?_)
                rw [List.mem_cons]
                exact h0
          · rw [if_neg hb3]
            by_cases hb4 : b < 0xF0
            · rw [if_pos hb4]
              cases rest with
              | nil => simp at h0
              | cons c1 rest1 =>
                rw [List.length_cons] at hl
                rw [List.mem_cons] at h0
                cases rest1 with
                | nil =>
                  replace h0 : 0 = c1 := by
                    rcases h0 with h0 | h0
                    · exact h0
                    · simp at h0
                  show 0 ∈ (if (if b = 0xE0 then 0xA0 else 0x80) ≤ c1 ∧
                      c1 ≤ (if b = 0xED then 0x9F else 0xBF) then
                      ([replacementChar] : List Nat)
                    else replacementChar :: utf8DecodeF n [c1])
                  by_cases hc1 : (if b = 0xE0 then 0xA0 else 0x80) ≤ c1 ∧
                      c1 ≤ (if b = 0xED then 0x9F else 0xBF)
                  · exfalso
                    rcases hc1 with ⟨hlo, -⟩
                    split at hlo <;> omega
                  · rw [if_neg hc1]
                    refine List.mem_cons_of_mem _
                      (ih [c1] (by simp; omega) ?_)
                    rw [← h0]
                    exact List.mem_cons_self 0 _
                | cons c2 rest2 =>
                  rw [List.length_cons] at hl
                  rw [List.mem_cons] at h0
                  show 0 ∈ (if (if b = 0xE0 then 0xA0 else 0x80) ≤ c1 ∧
                      c1 ≤ (if b = 0xED then 0x9F else 0xBF) then
                      (if isCont c2 = true then
                        ((b - 0xE0) * 4096 + (c1 - 0x80) * 64 + (c2 - 0x80)) ::
                          utf8DecodeF n rest2
                      else replacementChar :: utf8DecodeF n (c2 :: rest2))
                    else replacementChar :: utf8DecodeF n (c1 :: c2 :: rest2))
                  by_cases hc1 : (if b = 0xE0 then 0xA0 else 0x80) ≤ c1 ∧
                      c1 ≤ (if b = 0xED then 0x9F else 0xBF)
                  · rw [if_pos hc1]
                    have hc1ne : ¬ 0 = c1 := by
                      rcases hc1 with ⟨hlo, -⟩
                      split at hlo <;> omega
                    replace h0 := h0.resolve_left hc1ne
                    by_cases hc2 : isCont c2
                    · rw [if_pos hc2]
                      simp only [isCont, decide_eq_true_eq] at hc2
                      have h1 : 0 ∈ rest2 := h0.resolve_left (by omega)
                      exact List.mem_cons_of_mem _ (ih rest2 (by omega) h1)
                    · rw [if_neg hc2]
                      refine List.mem_cons_of_mem _
                        (ih (c2 :: rest2) (by rw [List.length_cons]; omega) ?_)
                      rw [List.mem_cons]
                      exact h0
                  · rw [if_neg hc1]
                    refine List.mem_cons_of_mem _
                      (ih (c1 :: c2 :: rest2)
                        (by rw [List.length_cons, List.length_cons]; omega) ?_)
                    rw [List.mem_cons, List.mem_cons]
                    exact h0
            · rw [if_neg hb4]
              by_cases hb5 : b < 0xF5
              · rw [if_pos hb5]
                cases rest with
                | nil => simp at h0
                | cons c1 rest1 =>
                  rw [List.length_cons] at hl
                  rw [List.mem_cons] at h0
                  cases rest1 with
                  | nil =>
                    replace h0 : 0 = c1 := by
                      rcases h0 with h0 | h0
                      · exact h0
                      · simp at h0
                    show 0 ∈ (if (if b = 0xF0 then 0x90 else 0x80) ≤ c1 ∧
                        c1 ≤ (if b = 0xF4 then 0x8F else 0xBF) then
                        ([replacementChar] : List Nat)
                      else replacementChar :: utf8DecodeF n [c1])
                    by_cases hc1 : (if b = 0xF0 then 0x90 else 0x80) ≤ c1 ∧
                        c1 ≤ (if b = 0xF4 then 0x8F else 0xBF)
                    · exfalso
                      rcases hc1 with ⟨hlo, -⟩
                      split at hlo <;> omega
                    · rw [if_neg hc1]
                      refine List.mem_cons_of_mem _
                        (ih [c1] (by simp; omega) ?_)
                      rw [← h0]
                      exact List.mem_cons_self 0 _
                  | cons c2 rest2 =>
                    rw [List.length_cons] at hl
                    rw [List.mem_cons] at h0
                    cases rest2 with
                    | nil =>
                      show 0 ∈ (if (if b = 0xF0 then 0x90 else 0x80) ≤ c1 ∧
                          c1 ≤ (if b = 0xF4 then 0x8F else 0xBF) then
                          (if isCont c2 = true then ([replacementChar] : List Nat)
                          else replacementChar :: utf8DecodeF n [c2])
                        else replacementChar :: utf8DecodeF n [c1, c2])
                      by_cases hc1 : (if b = 0xF0 then 0x90 else 0x80) ≤ c1 ∧
                          c1 ≤ (if b = 0xF4 then 0x8F else 0xBF)
                      · rw [if_pos hc1]
                        have hc1ne : ¬ 0 = c1 := by
                          rcases hc1 with ⟨hlo, -⟩
                          split at hlo <;> omega
                        replace h0 : 0 = c2 := by
                          rcases h0.resolve_left hc1ne with h0 | h0
                          · exact h0
                          · simp at h0
                        by_cases hc2 : isCont c2
                        · exfalso
                          simp only [isCont, decide_eq_true_eq] at hc2
                          omega
                        · rw [if_neg hc2]
                          refine List.mem_cons_of_mem _
                            (ih [c2] (by simp; omega) ?_)
                          rw [← h0]
                          exact List.mem_cons_self 0 _
                      · rw [if_neg hc1]
                        refine List.mem_cons_of_mem _
                          (ih [c1, c2] (by simp; omega) ?_)
                        rw [List.mem_cons, List.mem_cons]
                        exact h0
                    | cons c3 rest3 =>
                      rw [List.length_cons] at hl
                      rw [List.mem_cons] at h0
                      show 0 ∈ (if (if b = 0xF0 then 0x90 else 0x80) ≤ c1 ∧
                          c1 ≤ (if b = 0xF4 then 0x8F else 0xBF) then
                          (if isCont c2 = true then
                            (if isCont c3 = true then
                              (0xD800 + ((b - 0xF0) * 262144 +
                                (c1 - 0x80) * 4096 + (c2 - 0x80) * 64 +
                                (c3 - 0x80) - 0x10000) / 1024) ::
                                (0xDC00 + ((b - 0xF0) * 262144 +
                                  (c1 - 0x80) * 4096 + (c2 - 0x80) * 64 +
                                  (c3 - 0x80) - 0x10000) % 1024) ::
                                utf8DecodeF n rest3
                            else replacementChar :: utf8DecodeF n (c3 :: rest3))
                          else replacementChar :: utf8DecodeF n (c2 :: c3 :: rest3))
                        else replacementChar ::
                          utf8DecodeF n (c1 :: c2 :: c3 :: rest3))
                      by_cases hc1 : (if b = 0xF0 then 0x90 else 0x80) ≤ c1 ∧
                          c1 ≤ (if b = 0xF4 then 0x8F else 0xBF)
                      · rw [if_pos hc1]
                        have hc1ne : ¬ 0 = c1 := by
                          rcases hc1 with ⟨hlo, -⟩
                          split at hlo <;> omega
                        replace h0 := h0.resolve_left hc1ne
                        by_cases hc2 : isCont c2
                        · rw [if_pos hc2]
                          have hc2ne : ¬ 0 = c2 := by
                            simp only [isCont, decide_eq_true_eq] at hc2
                            omega
                          replace h0 := h0.resolve_left hc2ne
                          by_cases hc3 : isCont c3
                          · rw [if_pos hc3]
                            have hc3ne : ¬ 0 = c3 := by
                              simp only [isCont, decide_eq_true_eq] at hc3
                              omega
                            replace h0 := h0.resolve_left hc3ne
                            exact List.mem_cons_of_mem _
                              (List.mem_cons_of_mem _ (ih rest3 (by omega) h0))
                          · rw [if_neg hc3]
                            refine List.mem_cons_of_mem _
                              (ih (c3 :: rest3)
                                (by rw [List.length_cons]; omega) ?_)
                            rw [List.mem_cons]
                            exact h0
                        · rw [if_neg hc2]
                          refine List.mem_cons_of_mem _
                            (ih (c2 :: c3 :: rest3)
                              (by rw [List.length_cons, List.length_cons]; omega) ?_)
                          rw [List.mem_cons, List.mem_cons]
                          exact h0
                      · rw [if_neg hc1]
                        refine List.mem_cons_of_mem _
                          (ih (c1 :: c2 :: c3 :: rest3)
                            (by rw [List.length_cons, List.length_cons,
                              List.length_cons]; omega) ?_)
                        rw [List.mem_cons, List.mem_cons, List.mem_cons]
                        exact h0
              · rw [if_neg hb5]
                exact List.mem_cons_of_mem _ (ih rest hl h0)

/-- C7 amended: the sniff inspects at most the first 1000 base64 characters
and classifies binary when the decoded sample contains `U+0000` or when
more than 10% of the decoded string's code units (not the raw bytes) are
control characters; in particular a `0x00` byte anywhere in the sampled
bytes forces a binary classification, so the parsed result of the contents
API has `content = null` and `rawContent` equal to the original payload. -/
theorem binary_sniff_amended (path : String) (fc : GitHubFileContent)
    (h0 : 0 ∈ b64DecodeBytesOfChars (fc.content.toList.take 1000)) :
    isBinaryContent fc.content = true ∧
    (parseFileContent fc path).isBinary = true ∧
    (parseFileContent fc path).content = none ∧
    (parseFileContent fc path).rawContent = fc.content ∧
    (∀ s : String,
      isBinaryContent s = isBinaryContent (String.mk (s.toList.take 1000))) := by
  have hmem : 0 ∈ utf8Decode (b64DecodeBytesOfChars (fc.content.toList.take 1000)) :=
    zero_mem_utf8DecodeF _ _ le_rfl h0
  have hbin : isBinaryContent fc.content = true := by
    rw [isBinaryContent]
    have : (utf8Decode (b64DecodeBytesOfChars
        (fc.content.toList.take 1000))).any (fun code => code == 0) = true := by
      rw [List.any_eq_true]
      exact ⟨0, hmem, by simp⟩
    rw [this]
    rfl
  have hfile : isBinaryFile fc.name fc.content = true := by
    rw [isBinaryFile, hbin, Bool.or_true]
  refine ⟨hbin, ?_, ?_, rfl, ?_⟩
  · simp [parseFileContent, hfile]
  · simp [parseFileContent, hfile]
  · intro s
    simp [isBinaryContent, List.take_take]

/-- C7 amended-claim witness: the payload `hi\x00world`. -/
theorem binary_sniff_amended_witness :
    0 ∈ b64DecodeBytesOfChars (("aGkAd29ybGQ=").toList.take 1000) ∧
    isBinaryContent "aGkAd29ybGQ=" = true ∧
    (parseFileContent
      ⟨"x.txt", "x.txt", "s", 8, "u", "aGkAd29ybGQ=", BlobEncoding.base64⟩
      "x.txt").content = none := by
  refine ⟨by decide, ?_, ?_⟩
  · exact (binary_sniff_amended "x.txt"
      ⟨"x.txt", "x.txt", "s", 8, "u", "aGkAd29ybGQ=", BlobEncoding.base64⟩
      (by decide)).1
  · exact (binary_sniff_amended "x.txt"
      ⟨"x.txt", "x.txt", "s", 8, "u", "aGkAd29ybGQ=", BlobEncoding.base64⟩
      (by decide)).2.2.1

/-! ## C10 -/

/-- C10: `getDirectoryContents` returns the same item list for a path and
for the path with all leading and trailing slashes removed, over the same
underlying tree. -/
theorem directory_contents_normalization (tree : ParsedRepositoryTree)
    (path : String) :
    getDirectoryContents tree path =
      getDirectoryContents tree (stripSlashesBoth path) := by
  simp only [getDirectoryContents, stripSlashesBoth_idem]

end Portfolio
